import Mathlib

/-!
A verification development for the `bluesky-sweep.ts` bulk-deletion script.

The script is embedded shallowly:
* JavaScript string primitives (`includes`, `lastIndexOf`, `slice`,
  `parseInt`) are modelled as pure functions on `String` / `List Char`.
* The record payload (`record.value as any`) is modelled as a structure
  whose fields are `Option`-valued, mirroring the fact that the code reads
  them defensively (`val?.facets || []`, `embed.external?.uri?`) in some
  places and unguardedly (`feature.uri.includes`, `entity.value.includes`)
  in others.  A JavaScript `TypeError` thrown by an unguarded read is
  modelled as `Except.error ()`.
* The paginated scan loop, the chunking loop, the hourly quota check and
  the 429 retry loop are modelled as recursive functions; remote calls are
  driven by explicit scripts (lists of pages / call results), and the
  clock advances exactly by the amounts the code sleeps.
-/

set_option autoImplicit false

namespace BlueskySweep

/-! ### Configuration constants (lines 4-13 of the script) -/

def TARGET_DOMAIN : String := "futura-sciences.com"

def MAX_DELETES_PER_HOUR : Nat := 5000

def DELETES_PER_BATCH : Nat := 200

def DELAY_BETWEEN_BATCHES_MS : Nat := 5000

def SAFE_MARGIN : Nat := 100

/-- `const oneHourMs = 3600000` (line 134). -/
def oneHourMs : Nat := 3600000

/-! ### JavaScript string primitives -/

/-- `a` is a leading segment of `b` (helper for `String.includes`). -/
def leadsWith : List Char → List Char → Bool
  | [], _ => true
  | _ :: _, [] => false
  | a :: as, b :: bs => a = b && leadsWith as bs

/-- `needle` occurs contiguously inside `hay`. -/
def hasSub (needle : List Char) : List Char → Bool
  | [] => leadsWith needle []
  | b :: bs => leadsWith needle (b :: bs) || hasSub needle bs

/-- JavaScript `s.includes(target)`: case-sensitive substring test. -/
def jsIncludes (s target : String) : Bool :=
  hasSub target.data s.data

/-- Scan left to right carrying the index of the last occurrence seen so
far (initially `-1`), as JavaScript `lastIndexOf` observably behaves. -/
def lastIndexOfGo (c : Char) : List Char → Nat → Int → Int
  | [], _, best => best
  | x :: xs, i, best => lastIndexOfGo c xs (i + 1) (if x = c then (i : Int) else best)

/-- JavaScript `s.lastIndexOf(c)`: last index of `c`, or `-1`. -/
def jsLastIndexOf (s : String) (c : Char) : Int :=
  lastIndexOfGo c s.data 0 (-1)

/-- JavaScript `s.slice(start)` (single argument form). -/
def jsSlice (s : String) (start : Int) : String :=
  let len : Int := s.data.length
  let st : Int := if start < 0 then max (len + start) 0 else min start len
  String.mk (s.data.drop st.toNat)

/-- Leading decimal digits of a character list. -/
def leadingDigits : List Char → List Char
  | [] => []
  | c :: cs => if c.isDigit then c :: leadingDigits cs else []

/-- Numeric value of a digit list (most significant first). -/
def digitsVal (cs : List Char) : Nat :=
  cs.foldl (fun a c => a * 10 + (c.toNat - 48)) 0

/-- JavaScript `parseInt(s, 10)`: skip leading whitespace, optional sign,
then the longest run of decimal digits; `none` models `NaN`. -/
def jsParseInt (s : String) : Option Int :=
  let cs := s.data.dropWhile Char.isWhitespace
  let signAndRest : Int × List Char :=
    match cs with
    | '-' :: rest => (-1, rest)
    | '+' :: rest => (1, rest)
    | _ => (1, cs)
  match leadingDigits signAndRest.2 with
  | [] => none
  | ds => some (signAndRest.1 * (digitsVal ds : Int))

/-! ### `getRecordId` (lines 26-29) -/

/-- `const idx = uri.lastIndexOf('/'); return uri.slice(idx + 1);` -/
def getRecordId (uri : String) : String :=
  jsSlice uri (jsLastIndexOf uri '/' + 1)

/-! ### Data model of `record.value` -/

/-- One element of `facet.features`. -/
structure Feature where
  type : String
  uri : Option String
  deriving DecidableEq, Repr

/-- One element of `val.facets`. -/
structure Facet where
  features : Option (List Feature)
  deriving DecidableEq, Repr

/-- `embed.external`. -/
structure External where
  uri : Option String
  deriving DecidableEq, Repr

/-- `val.embed`. -/
structure Embed where
  type : String
  external : Option External
  deriving DecidableEq, Repr

/-- One element of `val.entities`. -/
structure Entity where
  type : String
  value : Option String
  deriving DecidableEq, Repr

/-- The record payload `val`.  A `null`/missing payload behaves exactly
like one with all three fields missing, so it is folded into this type. -/
structure Value where
  facets : Option (List Facet)
  embed : Option Embed
  entities : Option (List Entity)
  deriving DecidableEq, Repr

/-! ### The domain matcher (lines 62-109)

`Except.error ()` models a thrown `TypeError`. -/

/-- The facet-features loop (lines 70-80).  `feature.$type === '...#link'
&& feature.uri.includes(TARGET_DOMAIN)` reads `feature.uri` unguardedly:
a link-kind feature with no `uri` throws. -/
def checkFeatures (td : String) : List Feature → Except Unit Bool
  | [] => .ok false
  | f :: fs =>
    if f.type = "app.bsky.richtext.facet#link" then
      match f.uri with
      | none => .error ()
      | some u => if jsIncludes u td then .ok true else checkFeatures td fs
    else checkFeatures td fs

/-- The outer facet loop (lines 69-80), with its early `break` on a hit. -/
def checkFacets (td : String) : List Facet → Except Unit Bool
  | [] => .ok false
  | fa :: fas =>
    match checkFeatures td (fa.features.getD []) with
    | .error e => .error e
    | .ok true => .ok true
    | .ok false => checkFacets td fas

/-- The embed check (lines 83-89); fully guarded by optional chaining. -/
def checkEmbed (td : String) (e : Embed) : Bool :=
  e.type = "app.bsky.embed.external" &&
    (match e.external with
     | none => false
     | some ext =>
       match ext.uri with
       | none => false
       | some u => jsIncludes u td)

/-- The legacy entities loop (lines 92-100).  `entity.type === 'link' &&
entity.value.includes(TARGET_DOMAIN)` reads `entity.value` unguardedly. -/
def checkEntities (td : String) : List Entity → Except Unit Bool
  | [] => .ok false
  | en :: ens =>
    if en.type = "link" then
      match en.value with
      | none => .error ()
      | some v => if jsIncludes v td then .ok true else checkEntities td ens
    else checkEntities td ens

/-- The per-record matching logic of the scan loop (lines 62-100): facets
first, then the embed if not yet found, then legacy entities if still not
found. -/
def matchesValue (val : Value) (td : String) : Except Unit Bool :=
  match checkFacets td (val.facets.getD []) with
  | .error e => .error e
  | .ok found1 =>
    let found2 := found1 || (match val.embed with
      | some e => checkEmbed td e
      | none => false)
    if found2 then .ok true
    else checkEntities td (val.entities.getD [])

/-! ### Spec-side rendering of the three evidence sources -/

/-- Evidence source 1, as the spec words it: a rich-text annotation of
kind link whose URI contains the target domain. -/
def featureEvidence (td : String) (f : Feature) : Bool :=
  f.type = "app.bsky.richtext.facet#link" &&
    (match f.uri with
     | none => false
     | some u => jsIncludes u td)

/-- Evidence source 3, as the spec words it: a legacy link-type entity
whose value contains the target domain. -/
def entityEvidence (td : String) (en : Entity) : Bool :=
  en.type = "link" &&
    (match en.value with
     | none => false
     | some v => jsIncludes v td)

/-- Evidence source 2, as the spec words it: an attached external-reference
embed whose URI contains the target domain. -/
def embedEvidence (td : String) (v : Value) : Bool :=
  match v.embed with
  | none => false
  | some e =>
    e.type = "app.bsky.embed.external" &&
      (match e.external with
       | none => false
       | some ext =>
         match ext.uri with
         | none => false
         | some u => jsIncludes u td)

/-- The spec's matching predicate: at least one of the three evidence
sources contains the target domain. -/
def specEvidence (v : Value) (td : String) : Bool :=
  (v.facets.getD []).any (fun fa => (fa.features.getD []).any (featureEvidence td)) ||
    embedEvidence td v ||
    (v.entities.getD []).any (entityEvidence td)

/-! ### Well-formedness: the shapes on which no unguarded read throws -/

/-- A link-kind feature carries its `uri`. -/
def FeatureWF (f : Feature) : Prop :=
  f.type = "app.bsky.richtext.facet#link" → f.uri.isSome = true

/-- A link-type entity carries its `value`. -/
def EntityWF (en : Entity) : Prop :=
  en.type = "link" → en.value.isSome = true

/-- Every link-kind feature has a `uri` and every link-type entity has a
`value`. -/
def ValueWF (v : Value) : Prop :=
  (∀ fa ∈ v.facets.getD [], ∀ f ∈ fa.features.getD [], FeatureWF f) ∧
    ∀ en ∈ v.entities.getD [], EntityWF en

instance (f : Feature) : Decidable (FeatureWF f) := by
  unfold FeatureWF; infer_instance

instance (en : Entity) : Decidable (EntityWF en) := by
  unfold EntityWF; infer_instance

instance (v : Value) : Decidable (ValueWF v) := by
  unfold ValueWF; infer_instance

instance {ε α : Type} [DecidableEq ε] [DecidableEq α] : DecidableEq (Except ε α) :=
  fun a b =>
    match a, b with
    | .ok x, .ok y => if h : x = y then .isTrue (by rw [h]) else .isFalse (by simp [h])
    | .error x, .error y => if h : x = y then .isTrue (by rw [h]) else .isFalse (by simp [h])
    | .ok _, .error _ => .isFalse (by simp)
    | .error _, .ok _ => .isFalse (by simp)

/-! ### Delete intents and the content scanner (lines 41-110) -/

/-- The object pushed onto `deletes` (lines 103-107). -/
structure DeleteIntent where
  type : String
  collection : String
  rkey : String
  deriving DecidableEq, Repr

/-- `{ $type: 'com.atproto.repo.applyWrites#delete', collection:
'app.bsky.feed.post', rkey: getRecordId(record.uri) }`. -/
def mkDelete (uri : String) : DeleteIntent :=
  ⟨"com.atproto.repo.applyWrites#delete", "app.bsky.feed.post", getRecordId uri⟩

/-- One record returned by `listRecords`. -/
structure RecordEntry where
  uri : String
  value : Value
  deriving DecidableEq, Repr

/-- One page returned by the scripted paging RPC: its records and the
`response.data.cursor` for the next call. -/
structure Page where
  records : List RecordEntry
  cursor : Option String
  deriving DecidableEq, Repr

/-- The arguments the scan loop passes to `listRecords` (lines 49-55),
besides the fixed repo and collection. -/
structure PageRequest where
  limit : Nat
  cursor : Option String
  reverse : Bool
  deriving DecidableEq, Repr

/-- JavaScript truthiness of `cursor : string | undefined`: the `while
(cursor)` guard is false for `undefined` and for the empty string. -/
def truthy : Option String → Bool
  | none => false
  | some s => s ≠ ""

/-- The record loop of one page (lines 62-109): match each record and
append a delete intent for each hit, in encounter order.  An exception
from the matcher propagates. -/
def processRecords (td : String) : List RecordEntry → Except Unit (List DeleteIntent)
  | [] => .ok []
  | r :: rs =>
    match matchesValue r.value td with
    | .error e => .error e
    | .ok found =>
      match processRecords td rs with
      | .error e => .error e
      | .ok rest => .ok (if found then mkDelete r.uri :: rest else rest)

/-- Result of a scan run against a finite page script. -/
inductive ScanResult where
  | ok (intents : List DeleteIntent) (reqs : List PageRequest)
  | typeError
  | outOfScript
  deriving DecidableEq, Repr

/-- The do-while scan loop (lines 46-110), driven by a finite script of
pages: issue a request carrying the current cursor, take the page's
cursor as the new cursor, process the records, and continue while the new
cursor is truthy.  `outOfScript` is the modelling artefact for a script
shorter than the loop demands. -/
def scanGo (td : String) : List Page → Option String → List DeleteIntent →
    List PageRequest → ScanResult
  | [], _, _, _ => .outOfScript
  | page :: rest, cursor, acc, reqs =>
    match processRecords td page.records with
    | .error _ => .typeError
    | .ok ds =>
      if truthy page.cursor then
        scanGo td rest page.cursor (acc ++ ds) (reqs ++ [⟨100, cursor, true⟩])
      else
        .ok (acc ++ ds) (reqs ++ [⟨100, cursor, true⟩])

/-- The whole scan phase: the initial cursor is absent. -/
def scan (td : String) (script : List Page) : ScanResult :=
  scanGo td script none [] []

/-- The pages the do-while loop consumes: everything up to and including
the first page whose cursor is falsy (`none` if no page stops the loop). -/
def consumedPages : List Page → Option (List Page)
  | [] => none
  | p :: ps => if truthy p.cursor then (consumedPages ps).map (p :: ·) else some [p]

/-- Spec-side description of the scan output: one `DeleteIntent` per
matching record of the consumed pages, in encounter order. -/
def expectedIntents (td : String) (pages : List Page) : List DeleteIntent :=
  ((pages.map Page.records).flatten).filterMap fun r =>
    if specEvidence r.value td then some (mkDelete r.uri) else none

/-- Spec-side description of the requests: the first with an absent
cursor, each later one carrying the previous page's cursor, all with page
size 100 and oldest-first (`reverse: true`) ordering. -/
def expectedReqs (pages : List Page) : List PageRequest :=
  (none :: pages.dropLast.map Page.cursor).map fun c => ⟨100, c, true⟩

/-- Every record on the page has a well-formed payload. -/
def PageWF (p : Page) : Prop := ∀ r ∈ p.records, ValueWF r.value

instance (p : Page) : Decidable (PageWF p) := by
  unfold PageWF; infer_instance

/-! ### The batch partitioner `chunked` (lines 31-37) -/

/-- The loop body of `chunked`, with explicit fuel bounding the number of
iterations.  For `0 < size` the loop `for (idx = 0; idx < arr.length; idx
+= size)` runs at most `arr.length` iterations, so `chunked` below gives
it exactly `arr.length` fuel; each iteration pushes
`arr.slice(idx, idx + size)`, which relative to the items not yet
consumed is `take size`, and advances past `size` items. -/
def chunkedAux {α : Type} (size : Nat) : Nat → List α → List (List α)
  | _, [] => []
  | 0, _ :: _ => []
  | fuel + 1, a :: as => (a :: as).take size :: chunkedAux size fuel ((a :: as).drop size)

/-- `chunked(arr, size)` (lines 31-37). -/
def chunked {α : Type} (arr : List α) (size : Nat) : List (List α) :=
  chunkedAux size arr.length arr

/-- The value of `idx` after `n` executed iterations of the `chunked`
for-loop header: `idx` starts at 0 and each iteration does `idx += size`. -/
def chunkedLoopIdx (size : Nat) : Nat → Nat
  | 0 => 0
  | n + 1 => chunkedLoopIdx size n + size

/-- The `chunked` for-loop exits iff its guard `idx < arr.length`
eventually fails. -/
def ChunkedLoopExits (len size : Nat) : Prop :=
  ∃ n, len ≤ chunkedLoopIdx size n

/-! ### The 429 retry engine (lines 148-183) -/

/-- Outcome of one scripted `applyWrites` call: success, or an error with
an HTTP status and an optional `ratelimit-reset` header value. -/
inductive CallResult where
  | ok
  | err (status : Nat) (resetHeader : Option String)
  deriving DecidableEq, Repr

/-- Lines 162-172: `waitSeconds` defaults to 60; if the
`ratelimit-reset` header is truthy, parse it and use `resetTime - now`
only when that difference is positive. -/
def computeWaitSeconds (resetHeader : Option String) (nowMs : Nat) : Nat :=
  match resetHeader with
  | none => 60
  | some s =>
    if s = "" then 60
    else
      match jsParseInt s with
      | none => 60
      | some resetTime =>
        let now : Int := (nowMs / 1000 : Nat)
        if 0 < resetTime - now then (resetTime - now).toNat else 60

/-- Result of the retry loop for one unit. -/
structure RetryResult where
  success : Bool
  nowMs : Nat
  rest : List CallResult
  attempts : List (List DeleteIntent)
  deriving DecidableEq, Repr

/-- The `while (!success)` retry loop (lines 148-183), driven by a finite
script of call results: a successful call exits with `success = true`; a
429 sleeps `waitSeconds * 1000` ms and retries the same unit; any other
error breaks out with `success = false`.  `none` is the modelling
artefact for a script shorter than the loop demands.  `attempts` records
the writes of every issued call. -/
def runRetry (chunk : List DeleteIntent) : List CallResult → Nat →
    List (List DeleteIntent) → Option RetryResult
  | [], _, _ => none
  | .ok :: rest, nowMs, atts => some ⟨true, nowMs, rest, atts ++ [chunk]⟩
  | .err status hdr :: rest, nowMs, atts =>
    if status = 429 then
      runRetry chunk rest (nowMs + computeWaitSeconds hdr nowMs * 1000) (atts ++ [chunk])
    else
      some ⟨false, nowMs, rest, atts ++ [chunk]⟩

/-! ### The hourly quota governor and the dispatch loop (lines 122-194) -/

/-- The dispatcher's mutable state: the clock (`Date.now()`),
`hourWindowStart` and `deletesThisHour`.  The clock advances exactly by
the amounts the code sleeps. -/
structure DispatchState where
  nowMs : Nat
  hourWindowStart : Nat
  deletesThisHour : Nat
  deriving DecidableEq, Repr

/-- The quota check before one unit of size `n` (lines 130-143).  Returns
the state after the check, the milliseconds slept, and whether the branch
(wait-and-reset) was taken. -/
def governorStep (n : Nat) (st : DispatchState) : DispatchState × Nat × Bool :=
  if MAX_DELETES_PER_HOUR - SAFE_MARGIN < st.deletesThisHour + n then
    let elapsed := st.nowMs - st.hourWindowStart
    if elapsed < oneHourMs then
      let waitTime := oneHourMs - elapsed
      (⟨st.nowMs + waitTime, st.nowMs + waitTime, 0⟩, waitTime, true)
    else
      (⟨st.nowMs, st.nowMs, 0⟩, 0, true)
  else (st, 0, false)

/-- What the run records about one dispatched unit. -/
structure UnitTrace where
  chunk : List DeleteIntent
  reset : Bool
  waitedMs : Nat
  usedBefore : Nat
  attempts : Nat
  succeeded : Bool
  deriving DecidableEq, Repr

/-- The dispatch loop over the partitioned units (lines 126-194): before
each unit run the quota check, then the retry loop; on success add the
unit's size to `deletesThisHour` and sleep the inter-batch delay; on a
non-recoverable failure stop processing further units (`break`, line
192). -/
def runUnits : List (List DeleteIntent) → List CallResult → DispatchState →
    Option (List UnitTrace × DispatchState)
  | [], _, st => some ([], st)
  | chunk :: rest, oracle, st =>
    let g := governorStep chunk.length st
    match runRetry chunk oracle g.1.nowMs [] with
    | none => none
    | some rr =>
      if rr.success then
        match runUnits rest rr.rest
            ⟨rr.nowMs + DELAY_BETWEEN_BATCHES_MS, g.1.hourWindowStart,
              g.1.deletesThisHour + chunk.length⟩ with
        | none => none
        | some (tr, stf) =>
          some (⟨chunk, g.2.2, g.2.1, g.1.deletesThisHour, rr.attempts.length, true⟩ :: tr,
            stf)
      else
        some ([⟨chunk, g.2.2, g.2.1, g.1.deletesThisHour, rr.attempts.length, false⟩],
          ⟨rr.nowMs, g.1.hourWindowStart, g.1.deletesThisHour⟩)

/-! ### Spec-side helpers for `getRecordId` -/

/-- The characters strictly after the last `'/'` (the whole string when
no `'/'` occurs). -/
def afterLastSlash (s : String) : String :=
  String.mk ((s.data.reverse.takeWhile fun c => c ≠ '/').reverse)

/-- Index of the last occurrence of `c`, meaningful only when `c` is
present. -/
def lastPos (c : Char) : List Char → Nat
  | [] => 0
  | _ :: xs => if c ∈ xs then lastPos c xs + 1 else 0

/-! ### Refinement: on well-formed payloads the matcher computes exactly
the spec's three-source disjunction -/

theorem checkFeatures_eq_any (td : String) (fs : List Feature)
    (h : ∀ f ∈ fs, FeatureWF f) :
    checkFeatures td fs = .ok (fs.any (featureEvidence td)) := by
  induction fs with
  | nil => rfl
  | cons f fs ih =>
    have hrest : ∀ g ∈ fs, FeatureWF g := fun g hg => h g (List.mem_cons_of_mem _ hg)
    by_cases htype : f.type = "app.bsky.richtext.facet#link"
    · obtain ⟨u, hu⟩ := Option.isSome_iff_exists.mp (h f (List.mem_cons_self _ _) htype)
      by_cases hj : jsIncludes u td = true
      · simp [checkFeatures, featureEvidence, htype, hu, hj]
      · simp only [Bool.not_eq_true] at hj
        simp [checkFeatures, featureEvidence, htype, hu, hj, ih hrest]
    · simp [checkFeatures, featureEvidence, htype, ih hrest]

theorem checkFacets_eq_any (td : String) (fas : List Facet)
    (h : ∀ fa ∈ fas, ∀ f ∈ fa.features.getD [], FeatureWF f) :
    checkFacets td fas =
      .ok (fas.any fun fa => (fa.features.getD []).any (featureEvidence td)) := by
  induction fas with
  | nil => rfl
  | cons fa fas ih =>
    have hrest : ∀ fb ∈ fas, ∀ f ∈ fb.features.getD [], FeatureWF f :=
      fun fb hfb => h fb (List.mem_cons_of_mem _ hfb)
    have hhead := checkFeatures_eq_any td (fa.features.getD []) (h fa (List.mem_cons_self _ _))
    by_cases hb : (fa.features.getD []).any (featureEvidence td) = true
    · simp [checkFacets, hhead, hb]
    · simp only [Bool.not_eq_true] at hb
      rw [hb] at hhead
      simp [checkFacets, hhead, hb, ih hrest]

theorem checkEntities_eq_any (td : String) (ens : List Entity)
    (h : ∀ en ∈ ens, EntityWF en) :
    checkEntities td ens = .ok (ens.any (entityEvidence td)) := by
  induction ens with
  | nil => rfl
  | cons en ens ih =>
    have hrest : ∀ e ∈ ens, EntityWF e := fun e he => h e (List.mem_cons_of_mem _ he)
    by_cases htype : en.type = "link"
    · obtain ⟨v, hv⟩ := Option.isSome_iff_exists.mp (h en (List.mem_cons_self _ _) htype)
      by_cases hj : jsIncludes v td = true
      · simp [checkEntities, entityEvidence, htype, hv, hj]
      · simp only [Bool.not_eq_true] at hj
        simp [checkEntities, entityEvidence, htype, hv, hj, ih hrest]
    · simp [checkEntities, entityEvidence, htype, ih hrest]

theorem matchesValue_eq_specEvidence (v : Value) (td : String) (h : ValueWF v) :
    matchesValue v td = .ok (specEvidence v td) := by
  obtain ⟨hfac, hent⟩ := h
  have h1 := checkFacets_eq_any td (v.facets.getD []) hfac
  have h3 := checkEntities_eq_any td (v.entities.getD []) hent
  have hemb : (match v.embed with
      | some e => checkEmbed td e
      | none => false) = embedEvidence td v := by
    cases hv : v.embed <;> simp [checkEmbed, embedEvidence, hv]
  rw [matchesValue, h1, hemb, h3]
  cases hab : ((v.facets.getD []).any fun fa =>
      (fa.features.getD []).any (featureEvidence td)) || embedEvidence td v
  · simp [specEvidence, hab]
  · simp [specEvidence, hab]

/-! ### Claims C1 and C2 -/

/-- C1 (amended).  On every payload in which each link-kind facet feature
carries a `uri` and each link-type entity carries a `value`, the matcher
returns `true` iff at least one of the three evidence sources contains the
target domain as a case-sensitive substring, and `false` when none does
(in particular when all three sources are absent or empty).  The
restriction to such payloads is forced: on a payload with a `uri`-less
link-kind feature the matcher throws instead of returning a boolean. -/
theorem C1_matcher_true_iff_evidence (v : Value) (td : String) (h : ValueWF v) :
    matchesValue v td = .ok (specEvidence v td) :=
  matchesValue_eq_specEvidence v td h

/-- C1 counterexample to the claim as stated: a payload whose first facet
feature is link-kind but has no `uri`, while a legacy link entity does
contain the target domain.  Evidence is present, yet the matcher throws a
`TypeError` (modelled as `Except.error ()`) instead of returning `true`. -/
theorem C1_counterexample :
    specEvidence
        ⟨some [⟨some [⟨"app.bsky.richtext.facet#link", none⟩]⟩], none,
          some [⟨"link", some "futura-sciences.com"⟩]⟩ TARGET_DOMAIN = true ∧
      matchesValue
          ⟨some [⟨some [⟨"app.bsky.richtext.facet#link", none⟩]⟩], none,
            some [⟨"link", some "futura-sciences.com"⟩]⟩ TARGET_DOMAIN =
        Except.error () := by
  decide

/-- Witness for C1: a concrete well-formed payload with a matching facet
link. -/
theorem C1_witness :
    ValueWF
        ⟨some [⟨some [⟨"app.bsky.richtext.facet#link",
          some "https://futura-sciences.com/a"⟩]⟩], none, none⟩ ∧
      matchesValue
          ⟨some [⟨some [⟨"app.bsky.richtext.facet#link",
            some "https://futura-sciences.com/a"⟩]⟩], none, none⟩ TARGET_DOMAIN =
        .ok (specEvidence
          ⟨some [⟨some [⟨"app.bsky.richtext.facet#link",
            some "https://futura-sciences.com/a"⟩]⟩], none, none⟩ TARGET_DOMAIN) :=
  ⟨by decide, C1_matcher_true_iff_evidence _ TARGET_DOMAIN (by decide)⟩

/-- C2 (amended).  The matcher is total and returns a boolean on every
payload whose link-kind features all carry a `uri` and whose link-type
entities all carry a `value`; absent or missing container fields (no
facets, a facet with no features, no embed, an external-embed with no
`external.uri`, no entities) count as no evidence and yield `ok false`.
But the matcher is not total on arbitrary payloads: a link-kind facet
feature with no `uri`, or a link-type entity with no `value`, makes it
throw (modelled as `Except.error ()`). -/
theorem C2_matcher_totality :
    (∀ (td : String) (v : Value), ValueWF v → ∃ b, matchesValue v td = .ok b) ∧
      (∀ td : String, matchesValue ⟨none, none, none⟩ td = .ok false) ∧
      (∀ td : String,
        matchesValue ⟨some [⟨none⟩], some ⟨"app.bsky.embed.external", some ⟨none⟩⟩,
          some []⟩ td = .ok false) ∧
      (∀ td : String,
        matchesValue ⟨some [⟨some [⟨"app.bsky.richtext.facet#link", none⟩]⟩], none,
          none⟩ td = .error ()) ∧
      (∀ td : String, matchesValue ⟨none, none, some [⟨"link", none⟩]⟩ td = .error ()) := by
  refine ⟨fun td v h => ⟨specEvidence v td, matchesValue_eq_specEvidence v td h⟩,
    fun td => rfl, fun td => ?_, fun td => rfl, fun td => rfl⟩
  rfl

/-- C2 counterexample to the claim as stated: a link-type entity with no
`value` field makes the matcher throw instead of returning a boolean. -/
theorem C2_counterexample :
    matchesValue ⟨none, none, some [⟨"link", none⟩]⟩ TARGET_DOMAIN = Except.error () := by
  decide

/-- Witness for C2: the totality conjunct applied to the empty payload. -/
theorem C2_witness :
    ValueWF ⟨none, none, none⟩ ∧
      ∃ b, matchesValue ⟨none, none, none⟩ TARGET_DOMAIN = .ok b :=
  ⟨by decide, C2_matcher_totality.1 TARGET_DOMAIN ⟨none, none, none⟩ (by decide)⟩

/-! ### Properties of `chunked` -/

theorem chunkedAux_nil {α : Type} (size fuel : Nat) :
    chunkedAux size fuel ([] : List α) = [] := by
  cases fuel <;> rfl

theorem chunk_count_step (len size : Nat) (hs : 0 < size) (hl : 0 < len) :
    (len - size + size - 1) / size + 1 = (len + size - 1) / size := by
  rcases le_or_lt len size with hle | hlt
  · have h1 : len - size = 0 := by omega
    have h3 : len + size - 1 = (len - 1) + size := by omega
    rw [h1, h3, Nat.add_div_right _ hs, Nat.div_eq_of_lt (by omega : 0 + size - 1 < size),
      Nat.div_eq_of_lt (by omega : len - 1 < size)]
  · have h3 : len + size - 1 = (len - 1) + size := by omega
    have h4 : len - size + size - 1 = (len - size - 1) + size := by omega
    have h5 : len - 1 = (len - size - 1) + size := by omega
    rw [h3, h4, Nat.add_div_right _ hs, Nat.add_div_right _ hs, h5, Nat.add_div_right _ hs]

theorem chunkedAux_spec {α : Type} (size : Nat) (hs : 0 < size) :
    ∀ (fuel : Nat) (arr : List α), arr.length ≤ fuel →
      (chunkedAux size fuel arr).flatten = arr ∧
      (chunkedAux size fuel arr).length = (arr.length + size - 1) / size ∧
      (∀ c ∈ chunkedAux size fuel arr, c.length ≤ size) ∧
      ∀ c ∈ (chunkedAux size fuel arr).dropLast, c.length = size := by
  intro fuel
  induction fuel with
  | zero =>
    intro arr h
    obtain rfl : arr = [] := List.eq_nil_of_length_eq_zero (Nat.le_zero.mp h)
    refine ⟨rfl, ?_, by simp [chunkedAux], by simp [chunkedAux]⟩
    simp [chunkedAux, Nat.div_eq_of_lt (by omega : size - 1 < size)]
  | succ fuel ih =>
    intro arr h
    cases arr with
    | nil =>
      refine ⟨rfl, ?_, by simp [chunkedAux], by simp [chunkedAux]⟩
      simp [chunkedAux, Nat.div_eq_of_lt (by omega : size - 1 < size)]
    | cons a as =>
      have hlen : ((a :: as).drop size).length ≤ fuel := by
        simp only [List.length_drop, List.length_cons]
        simp only [List.length_cons] at h
        omega
      obtain ⟨ihj, ihl, ihb, ihd⟩ := ih ((a :: as).drop size) hlen
      refine ⟨?_, ?_, ?_, ?_⟩
      · simp only [chunkedAux, List.flatten_cons, ihj, List.take_append_drop]
      · simp only [chunkedAux, List.length_cons, ihl, List.length_drop]
        exact chunk_count_step (a :: as).length size hs (by simp)
      · intro c hc
        simp only [chunkedAux, List.mem_cons] at hc
        rcases hc with rfl | hc
        · simp only [List.length_take]
          omega
        · exact ihb c hc
      · intro c hc
        simp only [chunkedAux] at hc
        cases hrec : chunkedAux size fuel ((a :: as).drop size) with
        | nil => rw [hrec] at hc; simp at hc
        | cons r rs =>
          rw [hrec] at hc
          rcases List.mem_cons.mp (by simpa [List.dropLast] using hc) with rfl | hc'
          · have hne : (a :: as).drop size ≠ [] := by
              intro hd
              rw [hd, chunkedAux_nil] at hrec
              exact List.noConfusion hrec
            have hpos : 0 < ((a :: as).drop size).length := List.length_pos.mpr hne
            simp only [List.length_drop] at hpos
            simp only [List.length_take]
            omega
          · exact ihd c (by rw [hrec]; exact hc')

/-! ### Claims C6 and C7 -/

/-- C6.  For every intent list and every `batchSize > 0`, `chunked`
produces `ceil(L/B)` units (0 when `L = 0`), each of size at most `B`,
with every unit except possibly the last of size exactly `B`, and the
concatenation of the units in order is exactly the original list. -/
theorem C6_partition_shape (arr : List DeleteIntent) (B : Nat) (hB : 0 < B) :
    (chunked arr B).length = (arr.length + B - 1) / B ∧
      (chunked arr B).flatten = arr ∧
      (∀ c ∈ chunked arr B, c.length ≤ B) ∧
      (∀ c ∈ (chunked arr B).dropLast, c.length = B) ∧
      (arr = [] → chunked arr B = []) := by
  obtain ⟨hj, hl, hb, hd⟩ := chunkedAux_spec B hB arr.length arr (Nat.le_refl _)
  exact ⟨hl, hj, hb, hd, fun h => by rw [h]; rfl⟩

/-- Witness for C6 at a concrete list of three intents and `B = 2`. -/
theorem C6_witness :
    0 < 2 ∧
      (chunked [mkDelete "a/x", mkDelete "a/y", mkDelete "a/z"] 2).length =
          (([mkDelete "a/x", mkDelete "a/y", mkDelete "a/z"] : List DeleteIntent).length
            + 2 - 1) / 2 ∧
        (chunked [mkDelete "a/x", mkDelete "a/y", mkDelete "a/z"] 2).flatten =
          [mkDelete "a/x", mkDelete "a/y", mkDelete "a/z"] ∧
        (∀ c ∈ chunked [mkDelete "a/x", mkDelete "a/y", mkDelete "a/z"] 2, c.length ≤ 2) ∧
        (∀ c ∈ (chunked [mkDelete "a/x", mkDelete "a/y", mkDelete "a/z"] 2).dropLast,
          c.length = 2) ∧
        (([mkDelete "a/x", mkDelete "a/y", mkDelete "a/z"] : List DeleteIntent) = [] →
          chunked [mkDelete "a/x", mkDelete "a/y", mkDelete "a/z"] 2 = []) :=
  ⟨by decide, C6_partition_shape [mkDelete "a/x", mkDelete "a/y", mkDelete "a/z"] 2 (by decide)⟩

/-- C7 counterexample to the claim as stated.  The code contains no
batchSize validation at all: with batchSize 0 and a single intent, the
partition loop's guard `idx < arr.length` never fails — the program loops
forever rather than reporting a `ConfigurationError` and halting. -/
theorem C7_counterexample : ¬ ChunkedLoopExits 1 0 := by
  intro h
  obtain ⟨n, hn⟩ := h
  have hz : chunkedLoopIdx 0 n = 0 := by
    induction n with
    | zero => rfl
    | succ n ih => simp only [chunkedLoopIdx]; omega
  omega

/-- C7 (amended).  No validation of batchSize exists and no
`ConfigurationError` is ever reported: the batch size is the hard-coded
constant `DELETES_PER_BATCH = 200`, which is positive; had it been set to
0 with a nonempty intent list, the partition loop would never exit
(the program would not halt, and not with an error report). -/
theorem C7_no_validation :
    DELETES_PER_BATCH = 200 ∧ 0 < DELETES_PER_BATCH ∧
      ∀ n, chunkedLoopIdx 0 n < 1 := by
  refine ⟨rfl, by decide, fun n => ?_⟩
  induction n with
  | zero => decide
  | succ n ih => simp only [chunkedLoopIdx]; omega

/-! ### Properties of `getRecordId` -/

theorem stringMk_data (s : String) : String.mk s.data = s := by
  cases s
  rfl

theorem lastIndexOfGo_not_mem (c : Char) :
    ∀ xs : List Char, c ∉ xs → ∀ (i : Nat) (best : Int),
      lastIndexOfGo c xs i best = best := by
  intro xs
  induction xs with
  | nil => intro _ i best; rfl
  | cons x t ih =>
    intro h i best
    have hx : ¬ x = c := by
      intro hxc
      exact h (by rw [hxc]; exact List.mem_cons_self c t)
    simp only [lastIndexOfGo, if_neg hx]
    exact ih (fun hm => h (List.mem_cons_of_mem x hm)) (i + 1) best

theorem lastIndexOfGo_mem (c : Char) :
    ∀ xs : List Char, c ∈ xs → ∀ (i : Nat) (best : Int),
      lastIndexOfGo c xs i best = (i : Int) + (lastPos c xs : Int) := by
  intro xs
  induction xs with
  | nil => intro h; exact absurd h (List.not_mem_nil c)
  | cons x t ih =>
    intro h i best
    by_cases hm : c ∈ t
    · simp only [lastIndexOfGo]
      rw [ih hm (i + 1)]
      simp only [lastPos, if_pos hm]
      push_cast
      ring
    · have hx : x = c := by
        rcases List.mem_cons.mp h with h1 | h2
        · exact h1.symm
        · exact absurd h2 hm
      simp only [lastIndexOfGo, if_pos hx]
      rw [lastIndexOfGo_not_mem c t hm]
      simp only [lastPos, if_neg hm]
      simp

theorem jsLastIndexOf_slash (s : String) :
    jsLastIndexOf s '/' =
      if '/' ∈ s.data then (lastPos '/' s.data : Int) else -1 := by
  by_cases h : '/' ∈ s.data
  · rw [jsLastIndexOf, lastIndexOfGo_mem '/' s.data h 0 (-1), if_pos h]
    simp
  · rw [jsLastIndexOf, lastIndexOfGo_not_mem '/' s.data h 0 (-1), if_neg h]

theorem lastPos_lt_length (c : Char) :
    ∀ xs : List Char, c ∈ xs → lastPos c xs < xs.length := by
  intro xs
  induction xs with
  | nil => intro h; exact absurd h (List.not_mem_nil c)
  | cons x t ih =>
    intro h
    by_cases hm : c ∈ t
    · simp only [lastPos, if_pos hm, List.length_cons]
      exact Nat.succ_lt_succ (ih hm)
    · simp only [lastPos, if_neg hm, List.length_cons]
      omega

theorem takeWhile_append_all (p : Char → Bool) :
    ∀ l1 l2 : List Char, (∀ a ∈ l1, p a = true) →
      (l1 ++ l2).takeWhile p = l1 ++ l2.takeWhile p := by
  intro l1
  induction l1 with
  | nil => intro l2 _; rfl
  | cons x t ih =>
    intro l2 h
    have hx : p x = true := h x (List.mem_cons_self x t)
    simp only [List.cons_append, List.takeWhile, hx, List.append_eq]
    rw [ih l2 fun a ha => h a (List.mem_cons_of_mem x ha)]

theorem takeWhile_append_stop (p : Char → Bool) :
    ∀ l1 l2 : List Char, (∃ a ∈ l1, p a = false) →
      (l1 ++ l2).takeWhile p = l1.takeWhile p := by
  intro l1
  induction l1 with
  | nil =>
    intro l2 h
    obtain ⟨a, ha, _⟩ := h
    exact absurd ha (List.not_mem_nil a)
  | cons x t ih =>
    intro l2 h
    by_cases hx : p x = true
    · obtain ⟨a, ha, hpa⟩ := h
      have hat : a ∈ t := by
        rcases List.mem_cons.mp ha with rfl | h2
        · rw [hx] at hpa; exact absurd hpa (by simp)
        · exact h2
      simp only [List.cons_append, List.takeWhile, hx, List.append_eq]
      rw [ih l2 ⟨a, hat, hpa⟩]
    · have hx' : p x = false := by
        revert hx; cases p x <;> simp
      simp only [List.cons_append, List.takeWhile, hx']

theorem after_no_slash (cs : List Char) (h : '/' ∉ cs) :
    ((cs.reverse.takeWhile fun c => c ≠ '/').reverse) = cs := by
  have hall : ∀ x ∈ cs.reverse, (fun c => decide (c ≠ '/')) x = true := by
    intro a ha
    have hm : a ∈ cs := List.mem_reverse.mp ha
    simp only [decide_eq_true_eq]
    intro heq
    exact h (heq ▸ hm)
  rw [List.takeWhile_eq_self_iff.mpr fun x hx => by simpa using hall x hx,
    List.reverse_reverse]

theorem drop_after_lastPos :
    ∀ cs : List Char, '/' ∈ cs →
      cs.drop (lastPos '/' cs + 1) = (cs.reverse.takeWhile fun c => c ≠ '/').reverse := by
  intro cs
  induction cs with
  | nil => intro h; exact absurd h (List.not_mem_nil _)
  | cons x t ih =>
    intro h
    by_cases hm : '/' ∈ t
    · simp only [lastPos, if_pos hm, List.drop_succ_cons]
      rw [ih hm, List.reverse_cons,
        takeWhile_append_stop _ t.reverse [x] ⟨'/', List.mem_reverse.mpr hm, by simp⟩]
    · have hx : x = '/' := by
        rcases List.mem_cons.mp h with h1 | h2
        · exact h1.symm
        · exact absurd h2 hm
      simp only [lastPos, if_neg hm, List.drop_succ_cons, List.drop_zero]
      have hall : ∀ a ∈ t.reverse, (fun c => decide (c ≠ '/')) a = true := by
        intro a ha
        have hmt : a ∈ t := List.mem_reverse.mp ha
        simp only [decide_eq_true_eq]
        intro heq
        exact hm (heq ▸ hmt)
      rw [List.reverse_cons, hx,
        takeWhile_append_all _ t.reverse ['/'] hall]
      simp [List.takeWhile]

theorem jsSlice_natCast (s : String) (k : Nat) (hk : k ≤ s.data.length) :
    jsSlice s (k : Int) = String.mk (s.data.drop k) := by
  simp only [jsSlice]
  rw [if_neg (by omega : ¬ ((k : Int) < 0)),
    (by omega : min (k : Int) (s.data.length : Int) = (k : Int)), Int.toNat_natCast]

theorem getRecordId_eq_afterLastSlash (uri : String) :
    getRecordId uri = afterLastSlash uri := by
  rw [getRecordId, jsLastIndexOf_slash]
  by_cases h : '/' ∈ uri.data
  · rw [if_pos h]
    have hlt := lastPos_lt_length '/' uri.data h
    rw [(by push_cast; ring : (lastPos '/' uri.data : Int) + 1 =
        ((lastPos '/' uri.data + 1 : Nat) : Int)),
      jsSlice_natCast uri _ (by omega), drop_after_lastPos uri.data h, afterLastSlash]
  · rw [if_neg h,
      (by norm_num : (-1 : Int) + 1 = ((0 : Nat) : Int)),
      jsSlice_natCast uri 0 (by omega), List.drop_zero, afterLastSlash,
      after_no_slash uri.data h]

theorem afterLastSlash_ends_slash (s : String) (h : s.data.getLast? = some '/') :
    afterLastSlash s = "" := by
  rw [afterLastSlash]
  have h1 : s.data.reverse.head? = some '/' := by
    rw [List.head?_reverse]; exact h
  cases hr : s.data.reverse with
  | nil => rw [hr] at h1; exact absurd h1 (by simp)
  | cons y ys =>
    rw [hr] at h1
    have hy : y = '/' := by simpa using h1
    rw [hy]
    simp [List.takeWhile]

/-! ### Claim C10 -/

/-- C10.  `getRecordId` returns the substring strictly after the last
`'/'`:  in general it equals `afterLastSlash`; for a uri with no `'/'` it
returns the whole uri unchanged; for a uri ending in `'/'` it returns the
empty string. -/
theorem C10_getRecordId_last_segment (uri : String) :
    getRecordId uri = afterLastSlash uri ∧
      ('/' ∉ uri.data → getRecordId uri = uri) ∧
      (uri.data.getLast? = some '/' → getRecordId uri = "") := by
  refine ⟨getRecordId_eq_afterLastSlash uri, fun h => ?_, fun h => ?_⟩
  · rw [getRecordId_eq_afterLastSlash uri, afterLastSlash, after_no_slash uri.data h,
      stringMk_data]
  · rw [getRecordId_eq_afterLastSlash uri, afterLastSlash_ends_slash uri h]

/-- Witness for C10 at three concrete uris, one per conjunct. -/
theorem C10_witness :
    getRecordId "a/b/c" = afterLastSlash "a/b/c" ∧
      ('/' ∉ ("abc" : String).data ∧ getRecordId "abc" = "abc") ∧
      (("ab/" : String).data.getLast? = some '/' ∧ getRecordId "ab/" = "") :=
  ⟨(C10_getRecordId_last_segment "a/b/c").1,
    ⟨by decide, (C10_getRecordId_last_segment "abc").2.1 (by decide)⟩,
    ⟨by decide, (C10_getRecordId_last_segment "ab/").2.2 (by decide)⟩⟩

/-! ### Properties of the retry engine -/

theorem runRetry_429s_then_ok (chunk : List DeleteIntent) :
    ∀ (hs : List (Option String)) (nowMs : Nat) (atts : List (List DeleteIntent)),
      ∃ now2,
        runRetry chunk (hs.map (fun h => CallResult.err 429 h) ++ [CallResult.ok])
            nowMs atts =
          some ⟨true, now2, [], atts ++ List.replicate (hs.length + 1) chunk⟩ := by
  intro hs
  induction hs with
  | nil => intro nowMs atts; exact ⟨nowMs, rfl⟩
  | cons h hs ih =>
    intro nowMs atts
    obtain ⟨now2, h2⟩ := ih (nowMs + computeWaitSeconds h nowMs * 1000) (atts ++ [chunk])
    refine ⟨now2, ?_⟩
    simp only [List.map_cons, List.cons_append, runRetry, if_pos, List.append_eq]
    rw [h2]
    simp [List.replicate_succ, List.append_assoc]

theorem runRetry_failure_source (chunk : List DeleteIntent) :
    ∀ (oracle : List CallResult) (nowMs : Nat) (atts : List (List DeleteIntent))
      (rr : RetryResult),
      runRetry chunk oracle nowMs atts = some rr → rr.success = false →
      ∃ (hs : List (Option String)) (status : Nat) (hdr : Option String)
        (rest2 : List CallResult),
        status ≠ 429 ∧
          oracle = hs.map (fun h => CallResult.err 429 h) ++
            CallResult.err status hdr :: rest2 ∧
          rr.rest = rest2 ∧
          rr.attempts = atts ++ List.replicate (hs.length + 1) chunk := by
  intro oracle
  induction oracle with
  | nil =>
    intro nowMs atts rr h
    exact absurd h (by simp [runRetry])
  | cons r rest ih =>
    intro nowMs atts rr h hf
    cases r with
    | ok =>
      simp only [runRetry] at h
      cases h
      simp at hf
    | err status hdr =>
      by_cases h429 : status = 429
      · subst h429
        simp only [runRetry, if_pos] at h
        obtain ⟨hs, st, hd, r2, hne, heq, hrest, hatts⟩ := ih _ _ _ h hf
        refine ⟨hdr :: hs, st, hd, r2, hne, by rw [heq]; simp, hrest, ?_⟩
        rw [hatts]
        simp [List.replicate_succ, List.append_assoc]
      · simp only [runRetry, if_neg h429] at h
        cases h
        exact ⟨[], status, hdr, rest, h429, by simp, rfl, by simp⟩

/-! ### Claims C4 and C9 -/

/-- C4.  On a 429, the wait is `resetTime - now` when the header parses
and the difference is positive, else the 60-second default (also when
the difference is non-positive); then the same unit, with unchanged
contents, is retried — any number of consecutive 429s followed by a
success yields success with one attempt per call, every attempt carrying
exactly the original unit; and `success = false` (what the driver sees as
an abort) can only come from a non-429 error, so a 429 never surfaces. -/
theorem C4_rate_limit_retry :
    (∀ nowMs : Nat, computeWaitSeconds none nowMs = 60) ∧
      (∀ (s : String) (r : Int) (nowMs : Nat), jsParseInt s = some r →
        0 < r - ((nowMs / 1000 : Nat) : Int) →
        computeWaitSeconds (some s) nowMs = (r - ((nowMs / 1000 : Nat) : Int)).toNat) ∧
      (∀ (s : String) (r : Int) (nowMs : Nat), jsParseInt s = some r →
        r - ((nowMs / 1000 : Nat) : Int) ≤ 0 →
        computeWaitSeconds (some s) nowMs = 60) ∧
      (∀ (chunk : List DeleteIntent) (hs : List (Option String)) (nowMs : Nat),
        ∃ now2,
          runRetry chunk (hs.map (fun h => CallResult.err 429 h) ++ [CallResult.ok])
              nowMs [] =
            some ⟨true, now2, [], List.replicate (hs.length + 1) chunk⟩) ∧
      (∀ (chunk : List DeleteIntent) (oracle : List CallResult) (nowMs : Nat)
        (rr : RetryResult),
        runRetry chunk oracle nowMs [] = some rr → rr.success = false →
        ∃ (hs : List (Option String)) (status : Nat) (hdr : Option String)
          (rest2 : List CallResult), status ≠ 429 ∧
          oracle = hs.map (fun h => CallResult.err 429 h) ++
            CallResult.err status hdr :: rest2) := by
  refine ⟨fun _ => rfl, ?_, ?_, ?_, ?_⟩
  · intro s r nowMs hp hpos
    have hs' : s ≠ "" := by
      intro he
      rw [he] at hp
      exact Option.noConfusion hp
    simp only [computeWaitSeconds, if_neg hs', hp, if_pos hpos]
  · intro s r nowMs hp hnonpos
    have hs' : s ≠ "" := by
      intro he
      rw [he] at hp
      exact Option.noConfusion hp
    simp only [computeWaitSeconds, if_neg hs', hp,
      if_neg (by omega : ¬ (0 < r - ((nowMs / 1000 : Nat) : Int)))]
  · intro chunk hs nowMs
    obtain ⟨now2, h2⟩ := runRetry_429s_then_ok chunk hs nowMs []
    exact ⟨now2, by simpa using h2⟩
  · intro chunk oracle nowMs rr h hf
    obtain ⟨hs, st, hd, r2, hne, heq, _, _⟩ := runRetry_failure_source chunk oracle nowMs [] rr h hf
    exact ⟨hs, st, hd, r2, hne, heq⟩

/-- Witness for C4: the default wait, a positive server difference
(100 - 30 = 70s), a non-positive one, a 429-then-success run, and a
failure run whose cause is the non-429 status 500. -/
theorem C4_witness :
    computeWaitSeconds none 0 = 60 ∧
      (jsParseInt "100" = some 100 ∧
        computeWaitSeconds (some "100") 30000 = ((100 : Int) - ((30000 / 1000 : Nat) : Int)).toNat) ∧
      (jsParseInt "10" = some 10 ∧ computeWaitSeconds (some "10") 20000 = 60) ∧
      (∃ now2,
        runRetry [mkDelete "a/b"]
            (([none] : List (Option String)).map (fun h => CallResult.err 429 h) ++
              [CallResult.ok]) 7 [] =
          some ⟨true, now2, [], List.replicate 2 [mkDelete "a/b"]⟩) ∧
      (runRetry [mkDelete "a/b"] [CallResult.err 500 none] 7 [] =
          some ⟨false, 7, [], [[mkDelete "a/b"]]⟩ ∧
        ∃ (hs : List (Option String)) (status : Nat) (hdr : Option String)
          (rest2 : List CallResult), status ≠ 429 ∧
          ([CallResult.err 500 none] : List CallResult) =
            hs.map (fun h => CallResult.err 429 h) ++ CallResult.err status hdr :: rest2) :=
  ⟨C4_rate_limit_retry.1 0,
    ⟨by decide, C4_rate_limit_retry.2.1 "100" 100 30000 (by decide) (by decide)⟩,
    ⟨by decide, C4_rate_limit_retry.2.2.1 "10" 10 20000 (by decide) (by decide)⟩,
    C4_rate_limit_retry.2.2.2.1 [mkDelete "a/b"] [none] 7,
    ⟨by decide, C4_rate_limit_retry.2.2.2.2 [mkDelete "a/b"] [CallResult.err 500 none] 7
      ⟨false, 7, [], [[mkDelete "a/b"]]⟩ (by decide) rfl⟩⟩

/-- C9.  A present but unparseable `ratelimit-reset` header (`parseInt`
gives NaN, modelled as `jsParseInt = none`) falls back to the 60-second
default wait, identically to an absent header. -/
theorem C9_malformed_header_default (s : String) (nowMs : Nat) (h : jsParseInt s = none) :
    computeWaitSeconds (some s) nowMs = 60 ∧
      computeWaitSeconds (some s) nowMs = computeWaitSeconds none nowMs := by
  by_cases he : s = ""
  · subst he
    exact ⟨rfl, rfl⟩
  · constructor <;> simp only [computeWaitSeconds, if_neg he, h]

/-- Witness for C9 at the unparseable header value `"soon"`. -/
theorem C9_witness :
    jsParseInt "soon" = none ∧
      computeWaitSeconds (some "soon") 12345 = 60 ∧
      computeWaitSeconds (some "soon") 12345 = computeWaitSeconds none 12345 :=
  ⟨by decide, (C9_malformed_header_default "soon" 12345 (by decide)).1,
    (C9_malformed_header_default "soon" 12345 (by decide)).2⟩

/-! ### Properties of the quota governor and the dispatch loop -/

theorem governorStep_cases (n : Nat) (st : DispatchState) :
    (governorStep n st = (st, 0, false) ∧
      st.deletesThisHour + n ≤ MAX_DELETES_PER_HOUR - SAFE_MARGIN) ∨
      ((governorStep n st).1.deletesThisHour = 0 ∧ (governorStep n st).2.2 = true ∧
        MAX_DELETES_PER_HOUR - SAFE_MARGIN < st.deletesThisHour + n) := by
  by_cases h : MAX_DELETES_PER_HOUR - SAFE_MARGIN < st.deletesThisHour + n
  · right
    by_cases he : st.nowMs - st.hourWindowStart < oneHourMs <;>
      simp [governorStep, h, he]
  · left
    exact ⟨by simp [governorStep, h], by omega⟩

theorem runUnits_structure :
    ∀ (chunks : List (List DeleteIntent)) (oracle : List CallResult) (st : DispatchState)
      (tr : List UnitTrace) (stf : DispatchState),
      runUnits chunks oracle st = some (tr, stf) →
      tr.map UnitTrace.chunk = chunks.take tr.length ∧
        (∀ (i : Nat) (h : i + 1 < tr.length),
          (tr.get ⟨i, Nat.lt_of_succ_lt h⟩).succeeded = true) ∧
        (tr.length < chunks.length → ∃ t, tr.getLast? = some t ∧ t.succeeded = false) ∧
        ∀ t ∈ tr, t.usedBefore + t.chunk.length ≤ MAX_DELETES_PER_HOUR - SAFE_MARGIN ∨
          (t.reset = true ∧ t.usedBefore = 0) := by
  intro chunks
  induction chunks with
  | nil =>
    intro oracle st tr stf h
    simp only [runUnits, Option.some.injEq, Prod.mk.injEq] at h
    obtain ⟨rfl, rfl⟩ := h
    exact ⟨rfl, fun i hi => absurd hi (by simp), fun hl => absurd hl (by simp), by simp⟩
  | cons chunk rest ih =>
    intro oracle st tr stf h
    simp only [runUnits] at h
    cases hrr : runRetry chunk oracle (governorStep chunk.length st).1.nowMs [] with
    | none => rw [hrr] at h; exact absurd h (by simp)
    | some rr =>
      rw [hrr] at h
      dsimp only at h
      by_cases hsucc : rr.success = true
      · rw [if_pos hsucc] at h
        cases hrec : runUnits rest rr.rest
            ⟨rr.nowMs + DELAY_BETWEEN_BATCHES_MS,
              (governorStep chunk.length st).1.hourWindowStart,
              (governorStep chunk.length st).1.deletesThisHour + chunk.length⟩ with
        | none => rw [hrec] at h; exact absurd h (by simp)
        | some p =>
          obtain ⟨tr', stf'⟩ := p
          rw [hrec] at h
          dsimp only at h
          simp only [Option.some.injEq, Prod.mk.injEq] at h
          obtain ⟨rfl, rfl⟩ := h
          obtain ⟨iha, ihb, ihc, ihd⟩ := ih rr.rest _ tr' stf' hrec
          refine ⟨?_, ?_, ?_, ?_⟩
          · simp only [List.map_cons, List.length_cons, List.take_succ_cons, iha]
          · intro i hi
            cases i with
            | zero => rfl
            | succ j =>
              have hj : j + 1 < tr'.length := by simpa using hi
              simpa using ihb j hj
          · intro hlen
            have hlen' : tr'.length < rest.length := by simpa using hlen
            obtain ⟨t, ht, hts⟩ := ihc hlen'
            cases tr' with
            | nil => simp at ht
            | cons t1 ts =>
              exact ⟨t, by rw [List.getLast?_cons_cons]; exact ht, hts⟩
          · intro t hm
            rcases List.mem_cons.mp hm with rfl | hm'
            · rcases governorStep_cases chunk.length st with ⟨heq, hle⟩ | ⟨hz, hres, _⟩
              · left
                dsimp only
                rw [heq]
                exact hle
              · exact Or.inr ⟨hres, hz⟩
            · exact ihd t hm'
      · rw [if_neg hsucc] at h
        simp only [Option.some.injEq, Prod.mk.injEq] at h
        obtain ⟨rfl, rfl⟩ := h
        refine ⟨by simp, ?_, fun _ => ⟨_, rfl, rfl⟩, ?_⟩
        · intro i hi
          simp only [List.length_singleton] at hi
          omega
        · intro t hm
          rcases List.mem_cons.mp hm with rfl | hm'
          · rcases governorStep_cases chunk.length st with ⟨heq, hle⟩ | ⟨hz, hres, _⟩
            · left
              dsimp only
              rw [heq]
              exact hle
            · exact Or.inr ⟨hres, hz⟩
          · exact absurd hm' (List.not_mem_nil t)

theorem runUnits_single_state (chunk : List DeleteIntent) (oracle : List CallResult)
    (st : DispatchState) (t : UnitTrace) (stf : DispatchState)
    (h : runUnits [chunk] oracle st = some ([t], stf)) :
    stf.deletesThisHour = if t.succeeded then t.usedBefore + chunk.length else t.usedBefore := by
  simp only [runUnits] at h
  cases hrr : runRetry chunk oracle (governorStep chunk.length st).1.nowMs [] with
  | none => rw [hrr] at h; exact absurd h (by simp)
  | some rr =>
    rw [hrr] at h
    dsimp only at h
    by_cases hsucc : rr.success = true
    · rw [if_pos hsucc] at h
      simp only [Option.some.injEq, Prod.mk.injEq, List.cons.injEq, and_true] at h
      obtain ⟨rfl, rfl⟩ := h
      rfl
    · rw [if_neg hsucc] at h
      simp only [Option.some.injEq, Prod.mk.injEq, List.cons.injEq, and_true] at h
      obtain ⟨rfl, rfl⟩ := h
      rfl

/-! ### Claims C3 and C5 -/

/-- C3.  The quota check before each unit of size `n`:  if
`usedCount + n` exceeds `maxDeletesPerHour - safetyMargin` then, when the
elapsed time is under an hour, the caller sleeps exactly the remainder of
the hour and the window is reset to the post-sleep now with
`usedCount = 0`; when the hour has already elapsed the window resets
without sleeping; if the check passes nothing changes and no wait occurs;
a unit whose size alone exceeds the budget still triggers the single
wait-and-reset and is dispatched whole (the trace dispatches exactly the
partition's units); before every dispatch `usedCount + n` is within the
threshold unless the reset just forced `usedCount = 0`; and on success
the final counter is `usedBefore + n`, on failure it is unchanged. -/
theorem C3_quota_governor :
    (∀ (st : DispatchState) (n : Nat),
      MAX_DELETES_PER_HOUR - SAFE_MARGIN < st.deletesThisHour + n →
      st.nowMs - st.hourWindowStart < oneHourMs →
      governorStep n st =
        (⟨st.nowMs + (oneHourMs - (st.nowMs - st.hourWindowStart)),
          st.nowMs + (oneHourMs - (st.nowMs - st.hourWindowStart)), 0⟩,
          oneHourMs - (st.nowMs - st.hourWindowStart), true)) ∧
      (∀ (st : DispatchState) (n : Nat),
        MAX_DELETES_PER_HOUR - SAFE_MARGIN < st.deletesThisHour + n →
        ¬ st.nowMs - st.hourWindowStart < oneHourMs →
        governorStep n st = (⟨st.nowMs, st.nowMs, 0⟩, 0, true)) ∧
      (∀ (st : DispatchState) (n : Nat),
        st.deletesThisHour + n ≤ MAX_DELETES_PER_HOUR - SAFE_MARGIN →
        governorStep n st = (st, 0, false)) ∧
      (∀ (st : DispatchState) (n : Nat), MAX_DELETES_PER_HOUR - SAFE_MARGIN < n →
        (governorStep n st).2.2 = true ∧ (governorStep n st).1.deletesThisHour = 0) ∧
      (∀ (chunks : List (List DeleteIntent)) (oracle : List CallResult)
        (st : DispatchState) (tr : List UnitTrace) (stf : DispatchState),
        runUnits chunks oracle st = some (tr, stf) →
        ∀ t ∈ tr, t.usedBefore + t.chunk.length ≤ MAX_DELETES_PER_HOUR - SAFE_MARGIN ∨
          (t.reset = true ∧ t.usedBefore = 0)) ∧
      (∀ (chunks : List (List DeleteIntent)) (oracle : List CallResult)
        (st : DispatchState) (tr : List UnitTrace) (stf : DispatchState),
        runUnits chunks oracle st = some (tr, stf) →
        tr.map UnitTrace.chunk = chunks.take tr.length) ∧
      (∀ (chunk : List DeleteIntent) (oracle : List CallResult) (st : DispatchState)
        (t : UnitTrace) (stf : DispatchState),
        runUnits [chunk] oracle st = some ([t], stf) →
        stf.deletesThisHour =
          if t.succeeded then t.usedBefore + chunk.length else t.usedBefore) := by
  refine ⟨?_, ?_, ?_, ?_, ?_, ?_, runUnits_single_state⟩
  · intro st n h he
    simp only [governorStep, if_pos h, if_pos he]
  · intro st n h he
    simp only [governorStep, if_pos h, if_neg he]
  · intro st n h
    simp only [governorStep,
      if_neg (by omega : ¬ MAX_DELETES_PER_HOUR - SAFE_MARGIN < st.deletesThisHour + n)]
  · intro st n h
    rcases governorStep_cases n st with ⟨_, hle⟩ | ⟨hz, hres, _⟩
    · omega
    · exact ⟨hres, hz⟩
  · intro chunks oracle st tr stf h
    exact (runUnits_structure chunks oracle st tr stf h).2.2.2
  · intro chunks oracle st tr stf h
    exact (runUnits_structure chunks oracle st tr stf h).1

/-- Witness for C3: each conjunct applied at a concrete state — a
triggered check mid-hour, a triggered check after the hour, a passing
check, an oversized unit, and a one-unit successful run. -/
theorem C3_witness :
    governorStep 1 ⟨1000, 0, 4900⟩ =
        (⟨1000 + (oneHourMs - (1000 - 0)), 1000 + (oneHourMs - (1000 - 0)), 0⟩,
          oneHourMs - (1000 - 0), true) ∧
      governorStep 1 ⟨oneHourMs, 0, 4900⟩ = (⟨oneHourMs, oneHourMs, 0⟩, 0, true) ∧
      governorStep 1 ⟨0, 0, 0⟩ = (⟨0, 0, 0⟩, 0, false) ∧
      ((governorStep 4901 ⟨0, 0, 0⟩).2.2 = true ∧
        (governorStep 4901 ⟨0, 0, 0⟩).1.deletesThisHour = 0) ∧
      (runUnits [[mkDelete "a/b"]] [CallResult.ok] ⟨0, 0, 0⟩ =
          some ([⟨[mkDelete "a/b"], false, 0, 0, 1, true⟩], ⟨5000, 0, 1⟩) ∧
        (∀ t ∈ [(⟨[mkDelete "a/b"], false, 0, 0, 1, true⟩ : UnitTrace)],
          t.usedBefore + t.chunk.length ≤ MAX_DELETES_PER_HOUR - SAFE_MARGIN ∨
            (t.reset = true ∧ t.usedBefore = 0)) ∧
        ([(⟨[mkDelete "a/b"], false, 0, 0, 1, true⟩ : UnitTrace)].map UnitTrace.chunk =
          [[mkDelete "a/b"]].take 1) ∧
        (⟨5000, 0, 1⟩ : DispatchState).deletesThisHour =
          if (⟨[mkDelete "a/b"], false, 0, 0, 1, true⟩ : UnitTrace).succeeded then
            (⟨[mkDelete "a/b"], false, 0, 0, 1, true⟩ : UnitTrace).usedBefore +
              ([mkDelete "a/b"] : List DeleteIntent).length
          else (⟨[mkDelete "a/b"], false, 0, 0, 1, true⟩ : UnitTrace).usedBefore) :=
  ⟨C3_quota_governor.1 ⟨1000, 0, 4900⟩ 1 (by decide) (by decide),
    C3_quota_governor.2.1 ⟨oneHourMs, 0, 4900⟩ 1 (by decide) (by decide),
    C3_quota_governor.2.2.1 ⟨0, 0, 0⟩ 1 (by decide),
    C3_quota_governor.2.2.2.1 ⟨0, 0, 0⟩ 4901 (by decide),
    by decide,
    C3_quota_governor.2.2.2.2.1 [[mkDelete "a/b"]] [CallResult.ok] ⟨0, 0, 0⟩
      [⟨[mkDelete "a/b"], false, 0, 0, 1, true⟩] ⟨5000, 0, 1⟩ (by decide),
    C3_quota_governor.2.2.2.2.2.1 [[mkDelete "a/b"]] [CallResult.ok] ⟨0, 0, 0⟩
      [⟨[mkDelete "a/b"], false, 0, 0, 1, true⟩] ⟨5000, 0, 1⟩ (by decide),
    C3_quota_governor.2.2.2.2.2.2 [mkDelete "a/b"] [CallResult.ok] ⟨0, 0, 0⟩
      ⟨[mkDelete "a/b"], false, 0, 0, 1, true⟩ ⟨5000, 0, 1⟩ (by decide)⟩

/-- C5.  In every completed run, the dispatched units are exactly a
leading segment of the partition's units in order; every dispatched unit
except possibly the last succeeded; if the run stopped before the last
unit then the final dispatched unit was aborted (so units after it were
never dispatched and their intents never deleted, while the earlier
successes stand); and an abort arises exactly from the first non-429
error of its unit, with no retry after it (the failing call is the last
attempt and the rest of the call script is untouched). -/
theorem C5_nonrate_error_halts :
    (∀ (chunks : List (List DeleteIntent)) (oracle : List CallResult)
      (st : DispatchState) (tr : List UnitTrace) (stf : DispatchState),
      runUnits chunks oracle st = some (tr, stf) →
      tr.length ≤ chunks.length ∧
        tr.map UnitTrace.chunk = chunks.take tr.length ∧
        (∀ (i : Nat) (h : i + 1 < tr.length),
          (tr.get ⟨i, Nat.lt_of_succ_lt h⟩).succeeded = true) ∧
        (tr.length < chunks.length → ∃ t, tr.getLast? = some t ∧ t.succeeded = false)) ∧
      ∀ (chunk : List DeleteIntent) (oracle : List CallResult) (nowMs : Nat)
        (atts : List (List DeleteIntent)) (rr : RetryResult),
        runRetry chunk oracle nowMs atts = some rr → rr.success = false →
        ∃ (hs : List (Option String)) (status : Nat) (hdr : Option String)
          (rest2 : List CallResult),
          status ≠ 429 ∧
            oracle = hs.map (fun h => CallResult.err 429 h) ++
              CallResult.err status hdr :: rest2 ∧
            rr.rest = rest2 ∧
            rr.attempts = atts ++ List.replicate (hs.length + 1) chunk := by
  constructor
  · intro chunks oracle st tr stf h
    obtain ⟨ha, hb, hc, _⟩ := runUnits_structure chunks oracle st tr stf h
    refine ⟨?_, ha, hb, hc⟩
    have := congrArg List.length ha
    simp only [List.length_map, List.length_take] at this
    omega
  · exact fun chunk => runRetry_failure_source chunk

/-- Witness for C5: three units with a success then a 500-error — the
trace shows unit 1 succeeded, unit 2 aborted, unit 3 never dispatched. -/
theorem C5_witness :
    runUnits [[mkDelete "a/1"], [mkDelete "a/2"], [mkDelete "a/3"]]
        [CallResult.ok, CallResult.err 500 none] ⟨0, 0, 0⟩ =
      some ([⟨[mkDelete "a/1"], false, 0, 0, 1, true⟩,
          ⟨[mkDelete "a/2"], false, 0, 1, 1, false⟩], ⟨5000, 0, 1⟩) ∧
      (([⟨[mkDelete "a/1"], false, 0, 0, 1, true⟩,
          ⟨[mkDelete "a/2"], false, 0, 1, 1, false⟩] : List UnitTrace).length ≤
        ([[mkDelete "a/1"], [mkDelete "a/2"], [mkDelete "a/3"]] :
          List (List DeleteIntent)).length ∧
       ([⟨[mkDelete "a/1"], false, 0, 0, 1, true⟩,
          ⟨[mkDelete "a/2"], false, 0, 1, 1, false⟩] : List UnitTrace).map UnitTrace.chunk =
          ([[mkDelete "a/1"], [mkDelete "a/2"], [mkDelete "a/3"]] :
            List (List DeleteIntent)).take 2 ∧
        (∀ (i : Nat) (h : i + 1 <
          ([⟨[mkDelete "a/1"], false, 0, 0, 1, true⟩,
            ⟨[mkDelete "a/2"], false, 0, 1, 1, false⟩] : List UnitTrace).length),
          (([⟨[mkDelete "a/1"], false, 0, 0, 1, true⟩,
            ⟨[mkDelete "a/2"], false, 0, 1, 1, false⟩] : List UnitTrace).get
              ⟨i, Nat.lt_of_succ_lt h⟩).succeeded = true) ∧
        (([⟨[mkDelete "a/1"], false, 0, 0, 1, true⟩,
            ⟨[mkDelete "a/2"], false, 0, 1, 1, false⟩] : List UnitTrace).length <
          ([[mkDelete "a/1"], [mkDelete "a/2"], [mkDelete "a/3"]] :
            List (List DeleteIntent)).length →
          ∃ t, ([⟨[mkDelete "a/1"], false, 0, 0, 1, true⟩,
            ⟨[mkDelete "a/2"], false, 0, 1, 1, false⟩] : List UnitTrace).getLast? =
              some t ∧ t.succeeded = false)) :=
  ⟨by decide,
    C5_nonrate_error_halts.1 [[mkDelete "a/1"], [mkDelete "a/2"], [mkDelete "a/3"]]
      [CallResult.ok, CallResult.err 500 none] ⟨0, 0, 0⟩
      [⟨[mkDelete "a/1"], false, 0, 0, 1, true⟩, ⟨[mkDelete "a/2"], false, 0, 1, 1, false⟩]
      ⟨5000, 0, 1⟩ (by decide)⟩

/-! ### Properties of the content scanner -/

theorem processRecords_eq (td : String) :
    ∀ rs : List RecordEntry, (∀ r ∈ rs, ValueWF r.value) →
      processRecords td rs =
        .ok (rs.filterMap fun r =>
          if specEvidence r.value td then some (mkDelete r.uri) else none) := by
  intro rs
  induction rs with
  | nil => intro _; rfl
  | cons r rs ih =>
    intro h
    have hr := matchesValue_eq_specEvidence r.value td (h r (List.mem_cons_self _ _))
    simp only [processRecords, hr, ih fun x hx => h x (List.mem_cons_of_mem _ hx)]
    by_cases hb : specEvidence r.value td = true
    · simp [List.filterMap_cons, hb]
    · simp only [Bool.not_eq_true] at hb
      simp [List.filterMap_cons, hb]

theorem consumedPages_ne_nil :
    ∀ (ps : List Page) (l : List Page), consumedPages ps = some l → l ≠ [] := by
  intro ps
  induction ps with
  | nil => intro l h; exact absurd h (by simp [consumedPages])
  | cons p pt ih =>
    intro l h
    simp only [consumedPages] at h
    by_cases hc : truthy p.cursor = true
    · rw [if_pos hc] at h
      obtain ⟨l', _, hpl⟩ := Option.map_eq_some'.mp h
      rw [← hpl]
      exact List.cons_ne_nil p l'
    · rw [if_neg hc] at h
      simp only [Option.some.injEq] at h
      rw [← h]
      exact List.cons_ne_nil p []

theorem scanGo_spec (td : String) :
    ∀ (script pages : List Page) (cursor : Option String)
      (acc : List DeleteIntent) (reqs : List PageRequest),
      consumedPages script = some pages →
      (∀ p ∈ pages, PageWF p) →
      scanGo td script cursor acc reqs =
        .ok (acc ++ expectedIntents td pages)
          (reqs ++ (cursor :: pages.dropLast.map Page.cursor).map fun c => ⟨100, c, true⟩) := by
  intro script
  induction script with
  | nil =>
    intro pages cursor acc reqs h
    exact absurd h (by simp [consumedPages])
  | cons page rest ih =>
    intro pages cursor acc reqs hcons hwf
    simp only [consumedPages] at hcons
    by_cases hc : truthy page.cursor = true
    · rw [if_pos hc] at hcons
      obtain ⟨pages', hcp, hpp⟩ := Option.map_eq_some'.mp hcons
      subst hpp
      have hproc := processRecords_eq td page.records (hwf page (List.mem_cons_self _ _))
      simp only [scanGo, hproc, if_pos hc]
      rw [ih pages' page.cursor _ _ hcp fun p hp => hwf p (List.mem_cons_of_mem _ hp)]
      have hne := consumedPages_ne_nil rest pages' hcp
      congr 1
      · rw [List.append_assoc]
        congr 1
        simp [expectedIntents, List.filterMap_append]
      · rw [List.append_assoc]
        congr 1
        cases pages' with
        | nil => exact absurd rfl hne
        | cons q qs => simp [List.dropLast]
    · rw [if_neg hc] at hcons
      simp only [Option.some.injEq] at hcons
      rw [← hcons]
      have hproc := processRecords_eq td page.records
        (hwf page (by rw [← hcons]; exact List.mem_cons_self _ _))
      simp only [scanGo, hproc, if_neg hc]
      simp [expectedIntents]

/-! ### Claim C8 -/

/-- C8.  Against any page script that the do-while loop fully consumes
(all records well-formed), the scan returns: one request per consumed
page, the first with an absent cursor and each later one carrying the
previous page's cursor, all with page size 100 and `reverse: true`
(oldest-first); and the fully materialised intent list containing exactly
one `DeleteIntent` (derived from the record's uri) per matching record,
in encounter order.  The loop consumes pages while the returned cursor is
truthy (non-empty) and stops at the first absent-or-empty cursor, which
is what `consumedPages` expresses. -/
theorem C8_scanner_pagination (td : String) (script pages : List Page)
    (hcons : consumedPages script = some pages) (hwf : ∀ p ∈ pages, PageWF p) :
    scan td script = .ok (expectedIntents td pages) (expectedReqs pages) := by
  have h := scanGo_spec td script pages none [] [] hcons hwf
  simpa [scan, expectedReqs] using h

/-- Witness for C8: two pages — the first with cursor `"c1"` (truthy),
the second ending the loop with an empty-string cursor — and three
records of which two match the target domain `"a.b"`. -/
theorem C8_witness :
    consumedPages
        [⟨[⟨"at://x/1", ⟨none, none, some [⟨"link", some "xa.by"⟩]⟩⟩,
            ⟨"at://x/2", ⟨none, none, none⟩⟩], some "c1"⟩,
          ⟨[⟨"at://x/3", ⟨none, none, some [⟨"link", some "a.b"⟩]⟩⟩], some ""⟩] =
      some
        [⟨[⟨"at://x/1", ⟨none, none, some [⟨"link", some "xa.by"⟩]⟩⟩,
            ⟨"at://x/2", ⟨none, none, none⟩⟩], some "c1"⟩,
          ⟨[⟨"at://x/3", ⟨none, none, some [⟨"link", some "a.b"⟩]⟩⟩], some ""⟩] ∧
      (∀ p ∈ [(⟨[⟨"at://x/1", ⟨none, none, some [⟨"link", some "xa.by"⟩]⟩⟩,
            ⟨"at://x/2", ⟨none, none, none⟩⟩], some "c1"⟩ : Page),
          ⟨[⟨"at://x/3", ⟨none, none, some [⟨"link", some "a.b"⟩]⟩⟩], some ""⟩], PageWF p) ∧
      scan "a.b"
          [⟨[⟨"at://x/1", ⟨none, none, some [⟨"link", some "xa.by"⟩]⟩⟩,
              ⟨"at://x/2", ⟨none, none, none⟩⟩], some "c1"⟩,
            ⟨[⟨"at://x/3", ⟨none, none, some [⟨"link", some "a.b"⟩]⟩⟩], some ""⟩] =
        .ok
          (expectedIntents "a.b"
            [⟨[⟨"at://x/1", ⟨none, none, some [⟨"link", some "xa.by"⟩]⟩⟩,
                ⟨"at://x/2", ⟨none, none, none⟩⟩], some "c1"⟩,
              ⟨[⟨"at://x/3", ⟨none, none, some [⟨"link", some "a.b"⟩]⟩⟩], some ""⟩])
          (expectedReqs
            [⟨[⟨"at://x/1", ⟨none, none, some [⟨"link", some "xa.by"⟩]⟩⟩,
                ⟨"at://x/2", ⟨none, none, none⟩⟩], some "c1"⟩,
              ⟨[⟨"at://x/3", ⟨none, none, some [⟨"link", some "a.b"⟩]⟩⟩], some ""⟩]) :=
  ⟨by decide, by decide,
    C8_scanner_pagination "a.b" _ _ (by decide) (by decide)⟩

end BlueskySweep
